import Mathlib

/-!
Verification of the dependency-resolution runtime of rust-skeptic
(`src/skeptic/src/rt.rs`), as a shallow embedding in Lean 4.

Filesystem paths are modelled as lists of components; the filesystem state
visible to the program (existence of files, modification times, directory
walks) is an explicit `Snapshot` record passed to every function that reads
the disk.  Fallible Rust functions returning `Result<_, Error>` are embedded
as `Option`-returning functions (all errors in the source collapse to
"no result" as far as the resolution logic is concerned); `panic!`/`expect`
aborts are likewise `none`.
-/

namespace Skeptic

/-- A filesystem path, as its list of components. -/
abbrev Path := List String

/-- The filesystem state at one point in time: which paths exist, each
path's modification time, and the file list produced by recursively
walking a directory (`WalkDir` in the source). -/
structure Snapshot where
  pathExists : Path → Bool
  mtime : Path → Nat
  walkFiles : Path → List Path

/-- Split a character list at every character satisfying `p`, keeping
empty segments (the semantics of Rust's `str::split`). -/
def splitByPred (p : Char → Bool) : List Char → List (List Char)
  | [] => [[]]
  | c :: rest =>
    let r := splitByPred p rest
    if p c then [] :: r
    else
      match r with
      | [] => [[c]]
      | g :: gs => (c :: g) :: gs

/-- `str::split(sep)` for a single-character separator, as strings. -/
def splitOnChar (sep : Char) (s : String) : List String :=
  (splitByPred (fun c => c = sep) s.data).map String.mk

/-- `str::replace("-", "_")` (single-character pattern). -/
def replaceDash (s : String) : String :=
  String.mk (s.data.map (fun c => if c = '-' then '_' else c))

/-- `str::split_whitespace`: split on whitespace, discarding empty
segments. -/
def splitWhitespace (s : String) : List String :=
  (splitByPred Char.isWhitespace s.data).map String.mk |>.filter
    (fun t => t ≠ "")

/-- `Path::file_stem` of a single component, following the Rust rules:
the whole name when there is no `.`, the whole name when the name starts
with `.` and has no further `.`, otherwise the portion before the final
`.`. -/
def file_stem (s : String) : String :=
  match splitOnChar '.' s with
  | [] => s
  | [_] => s
  | ["", _] => s
  | parts => String.intercalate "." parts.dropLast

/-- `Path::extension` of a single component, following the Rust rules:
none when there is no `.` or the name starts with `.` and has no further
`.`, otherwise the portion after the final `.`. -/
def extensionOf (s : String) : Option String :=
  match splitOnChar '.' s with
  | [] => none
  | [_] => none
  | ["", _] => none
  | parts => parts.getLast?

/-- `PathBuf::set_extension` on a file name: truncate the current
extension and append the new one. -/
def set_extension (s : String) (ext : String) : String :=
  file_stem s ++ "." ++ ext

/-- `Path::file_stem` on a path (stem of the last component). -/
def pathFileStem (p : Path) : Option String :=
  p.getLast?.map file_stem

/-- `Path::extension` on a path (extension of the last component). -/
def pathExtension (p : Path) : Option String :=
  p.getLast?.bind extensionOf

/-- `PathBuf::set_extension` on a path: rewrite the last component,
no-op when the path has no final component. -/
def setExtPath (p : Path) (ext : String) : Path :=
  match p.getLast? with
  | none => p
  | some last => p.dropLast ++ [set_extension last ext]

/-- An artifact fingerprint (`struct Fingerprint` in the source). -/
structure Fingerprint where
  libname : String
  version : Option String
  rlib : Path
  mtime : Nat
deriving DecidableEq, Repr

/-- `guess_ext`: successively set each candidate extension on the path
(mutating it, as the source does) and return the first resulting path
that exists; none when no probed extension exists. -/
def guess_ext (snap : Snapshot) : List String → Path → Option Path
  | [], _ => none
  | ext :: rest, pth =>
    let p := setExtPath pth ext
    if snap.pathExists p then some p else guess_ext snap rest p

/-- `Fingerprint::from_path`: derive a fingerprint from a fingerprint
metadata file path.  The parent directory's stem is split from the right
on `-`; the extension must be `json`; the artifact lives three levels up
under `deps/lib<name>-<hash>` with the first existing probed extension;
the modification time is read from the metadata file (modelled by
requiring the file to exist in the snapshot, as `File::open` plus
`metadata().modified()` in the source). -/
def Fingerprint.from_path (snap : Snapshot) (pth : Path) : Option Fingerprint :=
  match pathFileStem pth.dropLast with
  | none => none
  | some stem =>
    let captures := (splitOnChar '-' stem).reverse
    match captures.head? with
    | none => none
    | some hash =>
      let libname := String.intercalate "_" captures.tail.reverse
      match pathExtension pth with
      | none => none
      | some e =>
        if e = "json" then
          let rlib0 := ((pth.dropLast).dropLast).dropLast
              ++ ["deps", "lib" ++ libname ++ "-" ++ hash]
          match guess_ext snap ["rlib", "so", "dylib", "dll"] rlib0 with
          | none => none
          | some rlib =>
            if snap.pathExists pth then
              some { libname := libname, version := none, rlib := rlib,
                     mtime := snap.mtime pth }
            else none
        else none

/-- `Fingerprint::name`. -/
def Fingerprint.name (f : Fingerprint) : String := f.libname

/-- Lookup in an association list, modelling `HashMap::get`. -/
def alookup {α : Type} : List (String × α) → String → Option α
  | [], _ => none
  | (k, v) :: rest, n => if k = n then some v else alookup rest n

/-- Insert into an association list, modelling `HashMap` insertion:
replace the entry when the key is present, append otherwise. -/
def ainsert {α : Type} : List (String × α) → String → α → List (String × α)
  | [], k, v => [(k, v)]
  | (k', v') :: rest, k, v =>
    if k' = k then (k, v) :: rest else (k', v') :: ainsert rest k v

/-- One step of the resolver loop in `get_rlib_dependencies`: the
`match (found_deps.entry(finger.name()), finger.version())` block. -/
def resolveStep (locked_deps : List (String × String))
    (found_deps : List (String × Fingerprint)) (finger : Fingerprint) :
    List (String × Fingerprint) :=
  match alookup locked_deps finger.name with
  | none => found_deps
  | some locked_ver =>
    match alookup found_deps finger.name, finger.version with
    | some e, some ver =>
      -- we find better match only if it is exact version match
      -- and has fresher build time
      if locked_ver = ver ∧ e.mtime < finger.mtime then
        ainsert found_deps finger.name finger
      else found_deps
    | none, ver =>
      -- we see an exact match or unversioned version
      if ver.getD locked_ver = locked_ver then
        ainsert found_deps finger.name finger
      else found_deps
    | some _, none => found_deps

/-- The resolver core: fold the candidate fingerprints through
`resolveStep`, then keep only entries whose artifact file exists
(the final `filter_map` in `get_rlib_dependencies`). -/
def resolveFingers (snap : Snapshot) (locked_deps : List (String × String))
    (fingers : List Fingerprint) : List Fingerprint :=
  ((fingers.foldl (resolveStep locked_deps) []).map Prod.snd).filter
    (fun f => snap.pathExists f.rlib)

/-- A cargo package id, carrying its `repr` string
("name version (source)" shaped, per the metadata service contract). -/
structure PackageId where
  rep : String
deriving DecidableEq, Repr

/-- A node of the resolve graph (`cargo_metadata::Node`): a package id and
the ids of its dependencies. -/
structure Node where
  id : PackageId
  dependencies : List PackageId
deriving DecidableEq, Repr

/-- The slice of `cargo_metadata::Metadata` the program reads: workspace
members, the optional resolve graph, and the declared edition string of
every package. -/
structure Metadata where
  workspace_members : List PackageId
  resolve : Option (List Node)
  packages : List String
deriving DecidableEq, Repr

/-- The build-metadata query service (`get_cargo_meta`): a partial map
from manifest paths to metadata. -/
abbrev MetaService := Path → Option Metadata

namespace LockedDeps

/-- `LockedDeps::from_path`: query metadata at `<root>/Cargo.toml`; fail
when the resolve graph is absent; otherwise list the id strings of every
dependency of every workspace-member node, followed by the workspace
members themselves. -/
def from_path (meta : MetaService) (pth : Path) : Option (List String) :=
  match meta (pth ++ ["Cargo.toml"]) with
  | none => none
  | some m =>
    match m.resolve with
    | none => none
    | some nodes =>
      let deps :=
        ((nodes.filter (fun n => m.workspace_members.contains n.id)).flatMap
          (fun n => n.dependencies)) ++ m.workspace_members
      some (deps.map (fun p => p.rep))

/-- One step of the `Iterator` impl for `LockedDeps`: split the id string
on whitespace; when it has at least a name and a second token, yield the
name (with `-` canonicalized to `_`) and that token. -/
def next (val : String) : Option (String × String) :=
  match splitWhitespace val with
  | name :: ver :: _ => some (replaceDash name, ver)
  | _ => none

/-- Driving the iterator to exhaustion, as `lock.collect()` does: the
vector is popped from the back, and the first id string that does not
yield a pair ends the iteration. -/
def collectAux : List String → List (String × String)
  | [] => []
  | v :: rest =>
    match next v with
    | some p => p :: collectAux rest
    | none => []

/-- `lock.collect()`: pairs produced from the dependency list, starting
from its back. -/
def collect (deps : List String) : List (String × String) :=
  collectAux deps.reverse

end LockedDeps

/-- Collecting `(String, String)` pairs into a `HashMap`: later pairs
overwrite earlier ones. -/
def lockedMapOf (ps : List (String × String)) : List (String × String) :=
  ps.foldl (fun acc p => ainsert acc p.1 p.2) []

/-- `get_rlib_dependencies`: read the locked dependencies from `root_dir`,
retrying two `pop`s up from `target_dir` when that fails; walk the
`.fingerprint` subtree of `target_dir` for candidate fingerprints; resolve
them against the locked set. -/
def get_rlib_dependencies (meta : MetaService) (snap : Snapshot)
    (root_dir target_dir : Path) : Option (List Fingerprint) :=
  match (match LockedDeps.from_path meta root_dir with
         | some l => some l
         | none =>
           -- could not find Cargo.lock in root_dir; try relative to target_dir
           LockedDeps.from_path meta ((target_dir.dropLast).dropLast)) with
  | none => none
  | some lockList =>
    let locked_deps := lockedMapOf (LockedDeps.collect lockList)
    let files := snap.walkFiles (target_dir ++ [".fingerprint"])
    some (resolveFingers snap locked_deps
      (files.filterMap (fun p => Fingerprint.from_path snap p)))

/-- `u64::from_str`: an optional leading `+`, then one or more decimal
digits, the value below `2 ^ 64`. -/
def parseU64 (s : String) : Option Nat :=
  let chars :=
    match s.toList with
    | '+' :: rest => rest
    | cs => cs
  if chars = [] then none
  else if chars.all Char.isDigit then
    let v := chars.foldl (fun acc c => acc * 10 + (c.toNat - 48)) 0
    if v < 2 ^ 64 then some v else none
  else none

/-- Pair every edition string with its parsed numeric value; any
unparseable edition is the `u64::from_str(..).unwrap()` panic inside
`max_by_key`, modelled as overall failure. -/
def editionPairs : List String → Option (List (String × Nat))
  | [] => some []
  | e :: rest =>
    match parseU64 e with
    | none => none
    | some v => (editionPairs rest).map (fun ps => (e, v) :: ps)

/-- `Iterator::max_by_key`: the last element attaining the maximal key;
none on an empty list. -/
def maxByKey {α : Type} (key : α → Nat) : List α → Option α
  | [] => none
  | x :: xs =>
    some (xs.foldl (fun acc y => if key acc ≤ key y then y else acc) x)

/-- `get_edition`: query metadata at `<path>/Cargo.toml` and return the
edition maximal by its numeric value over all packages; failure of the
query, of any parse, or an empty package list (the final `.unwrap()`)
aborts. -/
def get_edition (meta : MetaService) (path : Path) : Option String :=
  match meta (path ++ ["Cargo.toml"]) with
  | none => none
  | some m =>
    match editionPairs m.packages with
    | none => none
    | some ps => (maxByKey (fun p => p.2) ps).map (fun p => p.1)

/-- `enum CompileType`. -/
inductive CompileType where
  | Full
  | Check
deriving DecidableEq, Repr

/-- An external command about to be spawned: program and argument list. -/
structure Cmd where
  program : String
  args : List String
deriving DecidableEq, Repr

/-- Render a path as the string handed to the external process. -/
def pathToString (p : Path) : String := String.intercalate "/" p

/-- `compile_test_case`: build the compiler command line.  The edition is
determined first (its failure aborts before anything is spawned), then the
dependencies are resolved with the target directory three `pop`s up from
`out_dir`; the edition flag is added exactly when the edition differs from
"2015", before the `-L` flags. -/
def compile_test_case (meta : MetaService) (snap : Snapshot)
    (in_path out_path : Path) (rustc : String) (root_dir out_dir : Path)
    (target_triple : String) (compile_type : CompileType) : Option Cmd :=
  let target_dir := ((out_dir.dropLast).dropLast).dropLast
  let deps_dir := target_dir ++ ["deps"]
  match get_edition meta root_dir with
  | none => none
  | some edition =>
    match get_rlib_dependencies meta snap root_dir target_dir with
    | none => none
    | some deps =>
      some
        { program := rustc
          args :=
            [pathToString in_path, "--verbose", "--crate-type=bin"]
            ++ (if edition = "2015" then [] else ["--edition=" ++ edition])
            ++ ["-L", pathToString target_dir, "-L", pathToString deps_dir,
                "--target", target_triple]
            ++ deps.flatMap (fun dep =>
                 ["--extern", dep.libname ++ "=" ++ pathToString dep.rlib])
            ++ (match compile_type with
                | CompileType.Full => ["-o", pathToString out_path]
                | CompileType.Check =>
                  ["--emit=dep-info=" ++ pathToString out_path
                    ++ ".d,metadata=" ++ pathToString out_path ++ ".m"]) }

/-- What a finished subprocess produced: captured streams and whether its
exit status was success. -/
structure Output where
  stdout : String
  stderr : String
  success : Bool
deriving DecidableEq, Repr

/-- The observable effects of `interpret_output`: what was relayed to the
outer stdout and stderr, and the panic message when the command failed. -/
structure InterpResult where
  relayedOut : String
  relayedErr : String
  panicMsg : Option String
deriving DecidableEq, Repr

/-- `interpret_output`: print the captured stdout, eprint the captured
stderr, then panic with the command's debug representation when the exit
status was non-zero. -/
def interpret_output (cmdline : String) (o : Output) : InterpResult :=
  { relayedOut := o.stdout
    relayedErr := o.stderr
    panicMsg :=
      if o.success then none
      else some ("Command failed:\n" ++ cmdline) }

/-! ### Concrete fixtures used by example conjuncts and witnesses -/

/-- A snapshot where every path exists (isolates the resolver's selection
logic from the final existence filter). -/
def snapAll : Snapshot :=
  { pathExists := fun _ => true, mtime := fun _ => 0, walkFiles := fun _ => [] }

/-- A candidate for locked `foo@1.2.0`, versioned `1.2.0`, timestamp 1. -/
def fingerT1 : Fingerprint :=
  { libname := "foo", version := some "1.2.0", rlib := ["a"], mtime := 1 }

/-- A candidate for locked `foo@1.2.0`, versioned `1.2.0`, timestamp 2. -/
def fingerT2 : Fingerprint :=
  { libname := "foo", version := some "1.2.0", rlib := ["b"], mtime := 2 }

/-- The metadata file of a build of crate `my-crate`. -/
def pathC7 : Path :=
  ["target", "debug", ".fingerprint", "my-crate-abc123", "lib-my-crate.json"]

/-- A build cache holding one fingerprint for `my-crate` and its compiled
artifact. -/
def snapC7 : Snapshot :=
  { pathExists := fun p =>
      p ∈ [["target", "debug", "deps", "libmy_crate-abc123.rlib"], pathC7]
    mtime := fun _ => 0
    walkFiles := fun _ => [pathC7] }

/-- The metadata file of a build of crate `serde`. -/
def pathC3 : Path :=
  ["target", "debug", ".fingerprint", "serde-ff11", "lib-serde.json"]

/-- A build cache where `serde`'s artifact exists only with the `so`
extension (second probe). -/
def snapC3 : Snapshot :=
  { pathExists := fun p =>
      p ∈ [["target", "debug", "deps", "libserde-ff11.so"], pathC3]
    mtime := fun _ => 3
    walkFiles := fun _ => [pathC3] }

/-- A trivial metadata record: empty workspace, present (empty) resolve
graph, a single 2015-edition package. -/
def metaEmpty : Metadata :=
  { workspace_members := [], resolve := some [], packages := ["2015"] }

/-- A metadata service that only answers at `p/Cargo.toml`. -/
def metaOnlyP : MetaService := fun p =>
  if p = ["p", "Cargo.toml"] then some metaEmpty else none

/-- Metadata for a one-member workspace whose member depends on
`serde 1.0.0`. -/
def metaC9 : Metadata :=
  { workspace_members := [{ rep := "demo 0.1.0 (path+file:///demo)" }]
    resolve := some
      [{ id := { rep := "demo 0.1.0 (path+file:///demo)" }
         dependencies := [{ rep := "serde 1.0.0 (registry)" }] },
       { id := { rep := "serde 1.0.0 (registry)" }, dependencies := [] }]
    packages := ["2015", "2018"] }

/-- A metadata service answering at `r/Cargo.toml` with `metaC9`. -/
def metaAtR : MetaService := fun p =>
  if p = ["r", "Cargo.toml"] then some metaC9 else none

/-- A snapshot definitionally different from `snapAll` but pointwise
equal to it. -/
def snapAll' : Snapshot :=
  { pathExists := fun p => decide (p = p)
    mtime := fun p => p.length - p.length
    walkFiles := fun p => p.drop p.length |>.map (fun c => [c]) }

/-- A version-absent candidate named `foo`, discovered first. -/
def fingerN1 : Fingerprint :=
  { libname := "foo", version := none, rlib := ["n1"], mtime := 9 }

/-- A version-absent candidate named `foo`, discovered second (fresher,
but version-absent candidates never replace). -/
def fingerN2 : Fingerprint :=
  { libname := "foo", version := none, rlib := ["n2"], mtime := 10 }

/-- The fingerprint `Fingerprint::from_path` derives from `pathC7` in
`snapC7`. -/
def fpC7 : Fingerprint :=
  { libname := "my_crate", version := none
    rlib := ["target", "debug", "deps", "libmy_crate-abc123.rlib"]
    mtime := 0 }

/-- The fingerprint `Fingerprint::from_path` derives from `pathC3` in
`snapC3` (the `rlib` probe misses, the `so` probe hits). -/
def fpC3 : Fingerprint :=
  { libname := "serde", version := none
    rlib := ["target", "debug", "deps", "libserde-ff11.so"]
    mtime := 3 }

/-- Metadata whose only package declares an unparseable edition. -/
def metaBad : Metadata :=
  { workspace_members := [], resolve := some [], packages := ["twenty15"] }

/-- A metadata service answering at `b/Cargo.toml` with `metaBad`. -/
def metaBadAtB : MetaService := fun p =>
  if p = ["b", "Cargo.toml"] then some metaBad else none

/-- The successive probe paths `guess_ext` tries: each candidate
extension is set on the result of the previous attempt. -/
def probes (p : Path) : List Path :=
  let p1 := setExtPath p "rlib"
  let p2 := setExtPath p1 "so"
  let p3 := setExtPath p2 "dylib"
  let p4 := setExtPath p3 "dll"
  [p1, p2, p3, p4]

/-- The chain of paths `guess_ext` successively probes for an arbitrary
extension list. -/
def probeList (exts : List String) (p : Path) : List Path :=
  match exts with
  | [] => []
  | e :: rest => setExtPath p e :: probeList rest (setExtPath p e)

/-! ### Association-list lemmas -/

theorem alookup_ainsert_self {α : Type} (l : List (String × α)) (k : String)
    (v : α) : alookup (ainsert l k v) k = some v := by
  induction l with
  | nil => simp [ainsert, alookup]
  | cons p rest ih =>
    by_cases h : p.1 = k
    · simp [ainsert, h, alookup]
    · simp [ainsert, h, alookup, ih]

theorem alookup_ainsert_ne {α : Type} (l : List (String × α)) (k n : String)
    (v : α) (h : k ≠ n) : alookup (ainsert l k v) n = alookup l n := by
  induction l with
  | nil => simp [ainsert, alookup, h]
  | cons p rest ih =>
    by_cases hp : p.1 = k
    · obtain ⟨p1, p2⟩ := p
      subst hp
      simp [ainsert, alookup, h]
    · simp [ainsert, hp, alookup, ih]

theorem mem_ainsert {α : Type} (l : List (String × α)) (k : String) (v : α)
    (p : String × α) (h : p ∈ ainsert l k v) : p = (k, v) ∨ p ∈ l := by
  induction l with
  | nil => simp [ainsert] at h; simp [h]
  | cons q rest ih =>
    by_cases hq : q.1 = k
    · simp only [ainsert, hq, if_pos] at h
      rcases List.mem_cons.mp h with h | h
      · exact Or.inl h
      · exact Or.inr (List.mem_cons_of_mem _ h)
    · simp only [ainsert, hq, if_neg, not_false_iff] at h
      rcases List.mem_cons.mp h with h | h
      · exact Or.inr (by simp [h])
      · rcases ih h with h | h
        · exact Or.inl h
        · exact Or.inr (List.mem_cons_of_mem _ h)

theorem keys_ainsert_of_lookup_some {α : Type} (l : List (String × α))
    (k : String) (v : α) (h : (alookup l k).isSome) :
    (ainsert l k v).map Prod.fst = l.map Prod.fst := by
  induction l with
  | nil => simp [alookup] at h
  | cons p rest ih =>
    by_cases hp : p.1 = k
    · simp [ainsert, hp]
    · simp only [alookup, hp, if_neg, not_false_iff] at h
      simp [ainsert, hp, ih h]

theorem keys_ainsert_of_lookup_none {α : Type} (l : List (String × α))
    (k : String) (v : α) (h : alookup l k = none) :
    (ainsert l k v).map Prod.fst = l.map Prod.fst ++ [k] := by
  induction l with
  | nil => simp [ainsert]
  | cons p rest ih =>
    by_cases hp : p.1 = k
    · simp [alookup, hp] at h
    · simp only [alookup, hp, if_neg, not_false_iff] at h
      simp [ainsert, hp, ih h]

theorem alookup_eq_none_iff {α : Type} (l : List (String × α)) (k : String) :
    alookup l k = none ↔ k ∉ l.map Prod.fst := by
  induction l with
  | nil => simp [alookup]
  | cons p rest ih =>
    by_cases hp : p.1 = k
    · simp [alookup, hp]
    · simp [alookup, hp, ih, Ne.symm hp]

/-! ### Claim theorems -/

/-- C6: `interpret_output` relays the captured stdout and stderr to the
outer streams unconditionally (both on success and on failure); a
non-success exit status is fatal, and the failure report contains the
full invoked command line; a successful exit does not abort. -/
theorem interpret_output_spec (cmdline : String) (o : Output) :
    (interpret_output cmdline o).relayedOut = o.stdout
    ∧ (interpret_output cmdline o).relayedErr = o.stderr
    ∧ (o.success = true → (interpret_output cmdline o).panicMsg = none)
    ∧ (o.success = false →
        ∃ pre, (interpret_output cmdline o).panicMsg = some (pre ++ cmdline)) := by
  refine ⟨rfl, rfl, ?_, ?_⟩
  · intro h; simp [interpret_output, h]
  · intro h
    exact ⟨"Command failed:\n", by simp [interpret_output, h]⟩

/-- Witness for C6 at a concrete failing compiler run. -/
theorem interpret_output_spec_witness :
    (interpret_output "rustc test.rs" ⟨"out", "err", false⟩).relayedOut = "out"
    ∧ (interpret_output "rustc test.rs" ⟨"out", "err", false⟩).relayedErr = "err"
    ∧ ∃ pre, (interpret_output "rustc test.rs" ⟨"out", "err", false⟩).panicMsg
        = some (pre ++ "rustc test.rs") := by
  obtain ⟨h1, h2, _, h4⟩ := interpret_output_spec "rustc test.rs" ⟨"out", "err", false⟩
  exact ⟨h1, h2, h4 rfl⟩

/-- C7: name normalization makes the manifest and artifact conventions
meet: the lock reader turns `my-crate 1.0.0` into name `my_crate`, the
scanner derives `my_crate` from the directory `my-crate-abc123`, and the
two match during resolution. -/
theorem name_normalization_spec :
    LockedDeps.next "my-crate 1.0.0" = some ("my_crate", "1.0.0")
    ∧ (Fingerprint.from_path snapC7 pathC7).map (fun f => f.libname)
        = some "my_crate"
    ∧ (resolveFingers snapC7 [("my_crate", "1.0.0")]
        ((snapC7.walkFiles ["target", "debug", ".fingerprint"]).filterMap
          (Fingerprint.from_path snapC7))).map (fun f => f.libname)
        = ["my_crate"] := by
  refine ⟨by decide, by decide, by decide⟩

/-- C8: the resolver is a pure function of its two inputs: two snapshots
that agree pointwise (same file existence, same modification times, same
walk results) yield identical resolved sets, for any metadata service and
directories. -/
theorem resolver_deterministic (s1 s2 : Snapshot) (meta : MetaService)
    (root_dir target_dir : Path)
    (hex : ∀ p, s1.pathExists p = s2.pathExists p)
    (hmt : ∀ p, s1.mtime p = s2.mtime p)
    (hwk : ∀ p, s1.walkFiles p = s2.walkFiles p) :
    get_rlib_dependencies meta s1 root_dir target_dir
      = get_rlib_dependencies meta s2 root_dir target_dir := by
  have h12 : s1 = s2 := by
    obtain ⟨e1, m1, w1⟩ := s1
    obtain ⟨e2, m2, w2⟩ := s2
    simp only [Snapshot.mk.injEq]
    exact ⟨funext hex, funext hmt, funext hwk⟩
  rw [h12]

/-- Witness for C8: two definitionally different but pointwise equal
snapshots resolve identically. -/
theorem resolver_deterministic_witness :
    get_rlib_dependencies metaOnlyP snapAll ["p"] ["p", "target", "debug"]
      = get_rlib_dependencies metaOnlyP snapAll' ["p"] ["p", "target", "debug"] :=
  resolver_deterministic snapAll snapAll' metaOnlyP ["p"] ["p", "target", "debug"]
    (fun p => by simp [snapAll, snapAll'])
    (fun p => by simp [snapAll, snapAll'])
    (fun p => by simp [snapAll, snapAll'])

/-- C1: the resolver's per-candidate step rule.  For a fingerprint whose
name has a locked version `v`: with no entry yet, the fingerprint is
accepted exactly when it carries no version or its version equals `v`;
with an existing entry, it replaces it exactly when its version equals
`v` and its modification time is strictly greater; a version-absent
fingerprint never replaces an existing entry.  In particular, of two
candidates for locked `foo@1.2.0` both versioned `1.2.0` with timestamps
1 < 2, the later one is resolved. -/
theorem resolver_step_rule (locked : List (String × String))
    (found : List (String × Fingerprint)) (f : Fingerprint) (v : String)
    (hl : alookup locked f.libname = some v) :
    ((alookup found f.libname = none →
        resolveStep locked found f =
          if f.version = none ∨ f.version = some v then
            ainsert found f.libname f
          else found)
      ∧ (∀ e, alookup found f.libname = some e →
          resolveStep locked found f =
            if f.version = some v ∧ e.mtime < f.mtime then
              ainsert found f.libname f
            else found)
      ∧ (∀ e, alookup found f.libname = some e → f.version = none →
          resolveStep locked found f = found))
    ∧ resolveFingers snapAll [("foo", "1.2.0")] [fingerT1, fingerT2]
        = [fingerT2] := by
  refine ⟨⟨?_, ?_, ?_⟩, by decide⟩
  · intro hnone
    cases hv : f.version with
    | none => simp [resolveStep, Fingerprint.name, hl, hnone, hv]
    | some x =>
      by_cases hx : x = v
      · subst hx
        simp [resolveStep, Fingerprint.name, hl, hnone, hv]
      · simp [resolveStep, Fingerprint.name, hl, hnone, hv, hx,
          Ne.symm hx]
  · intro e he
    cases hv : f.version with
    | none => simp [resolveStep, Fingerprint.name, hl, he, hv]
    | some x =>
      by_cases hx : x = v
      · subst hx
        simp [resolveStep, Fingerprint.name, hl, he, hv]
      · simp [resolveStep, Fingerprint.name, hl, he, hv, hx, Ne.symm hx]
  · intro e he hv
    simp [resolveStep, Fingerprint.name, hl, he, hv]

/-- Witness for C1: the step rule applied at concrete inputs — the first
`foo@1.2.0` candidate is accepted into the empty map, and the fresher one
then replaces it. -/
theorem resolver_step_rule_witness :
    resolveStep [("foo", "1.2.0")] [] fingerT1
      = ainsert [] fingerT1.libname fingerT1
    ∧ resolveStep [("foo", "1.2.0")] [("foo", fingerT1)] fingerT2
      = ainsert [("foo", fingerT1)] fingerT2.libname fingerT2 := by
  constructor
  · have h := (resolver_step_rule [("foo", "1.2.0")] [] fingerT1 "1.2.0"
      (by decide)).1.1 (by decide)
    rw [h]; decide
  · have h := (resolver_step_rule [("foo", "1.2.0")] [("foo", fingerT1)]
      fingerT2 "1.2.0" (by decide)).1.2.1 fingerT1 (by decide)
    rw [h]; decide

/-- `resolveStep` only ever touches the entry keyed by the candidate's
own name. -/
theorem resolveStep_lookup_ne (locked : List (String × String))
    (acc : List (String × Fingerprint)) (f : Fingerprint) (n : String)
    (h : f.libname ≠ n) :
    alookup (resolveStep locked acc f) n = alookup acc n := by
  unfold resolveStep Fingerprint.name
  split
  · rfl
  · split
    · split
      · exact alookup_ainsert_ne _ _ _ _ h
      · rfl
    · split
      · exact alookup_ainsert_ne _ _ _ _ h
      · rfl
    · rfl

/-- An occupied entry survives a whole pass of version-absent candidates
(the occupied-entry branch never fires for them). -/
theorem foldl_keeps_occupied (locked : List (String × String))
    (fs : List Fingerprint) (hv : ∀ f ∈ fs, f.version = none) :
    ∀ (acc : List (String × Fingerprint)) (n : String) (e : Fingerprint),
      alookup acc n = some e →
      alookup (fs.foldl (resolveStep locked) acc) n = some e := by
  induction fs with
  | nil => intro acc n e he; simpa using he
  | cons f rest ih =>
    intro acc n e he
    have hvf : f.version = none := hv f (List.mem_cons_self f rest)
    have hstep : alookup (resolveStep locked acc f) n = some e := by
      by_cases hn : f.libname = n
      · subst hn
        unfold resolveStep Fingerprint.name
        split
        · exact he
        · rw [he, hvf]; exact he
      · rw [resolveStep_lookup_ne locked acc f n hn]; exact he
    exact ih (fun g hg => hv g (List.mem_cons_of_mem f hg)) _ n e hstep

/-- Over version-absent candidates, the entry resolved for a locked name
is the first candidate carrying that name. -/
theorem foldl_first_wins (locked : List (String × String))
    (fs : List Fingerprint) (hv : ∀ f ∈ fs, f.version = none)
    (n : String) (v : String) (hl : alookup locked n = some v) :
    ∀ (acc : List (String × Fingerprint)), alookup acc n = none →
      alookup (fs.foldl (resolveStep locked) acc) n
        = fs.find? (fun f => f.libname == n) := by
  induction fs with
  | nil => intro acc hacc; simpa using hacc
  | cons f rest ih =>
    intro acc hacc
    have hvf : f.version = none := hv f (List.mem_cons_self f rest)
    have hvr : ∀ g ∈ rest, g.version = none :=
      fun g hg => hv g (List.mem_cons_of_mem f hg)
    by_cases hn : f.libname = n
    · have hstep : alookup (resolveStep locked acc f) n = some f := by
        subst hn
        unfold resolveStep Fingerprint.name
        rw [hl, hacc, hvf]
        simp [alookup_ainsert_self]
      have := foldl_keeps_occupied locked rest hvr
        (resolveStep locked acc f) n f hstep
      simp only [List.foldl_cons, this, List.find?]
      have : (f.libname == n) = true := by simp [hn]
      rw [this]
    · have hstep : alookup (resolveStep locked acc f) n = none := by
        rw [resolveStep_lookup_ne locked acc f n hn]; exact hacc
      have hrec := ih hvr (resolveStep locked acc f) hstep
      simp only [List.foldl_cons, hrec, List.find?]
      have : (f.libname == n) = false := by simp [hn]
      rw [this]

/-- A resolver step either leaves the map unchanged or inserts the
candidate under its own name. -/
theorem resolveStep_cases (locked : List (String × String))
    (acc : List (String × Fingerprint)) (f : Fingerprint) :
    resolveStep locked acc f = acc
    ∨ resolveStep locked acc f = ainsert acc f.libname f := by
  unfold resolveStep Fingerprint.name
  split
  · exact Or.inl rfl
  · split
    · split
      · exact Or.inr rfl
      · exact Or.inl rfl
    · split
      · exact Or.inr rfl
      · exact Or.inl rfl
    · exact Or.inl rfl

/-- A resolver step preserves the map invariant: keys are pairwise
distinct and each entry is keyed by its fingerprint's name. -/
theorem resolveStep_inv (locked : List (String × String))
    (acc : List (String × Fingerprint)) (f : Fingerprint)
    (h1 : (acc.map Prod.fst).Nodup) (h2 : ∀ p ∈ acc, p.1 = p.2.libname) :
    ((resolveStep locked acc f).map Prod.fst).Nodup
    ∧ ∀ p ∈ resolveStep locked acc f, p.1 = p.2.libname := by
  rcases resolveStep_cases locked acc f with h | h
  · rw [h]; exact ⟨h1, h2⟩
  · rw [h]
    constructor
    · cases hlk : alookup acc f.libname with
      | some e =>
        rw [keys_ainsert_of_lookup_some acc f.libname f (by simp [hlk])]
        exact h1
      | none =>
        rw [keys_ainsert_of_lookup_none acc f.libname f hlk]
        have hnotin := (alookup_eq_none_iff acc f.libname).mp hlk
        simp [List.nodup_append, h1, List.disjoint_singleton, hnotin]
    · intro p hp
      rcases mem_ainsert acc f.libname f p hp with h' | h'
      · rw [h']
      · exact h2 p h'

/-- The whole resolver fold preserves the map invariant. -/
theorem foldl_resolve_inv (locked : List (String × String))
    (fs : List Fingerprint) :
    ∀ acc, (acc.map Prod.fst).Nodup → (∀ p ∈ acc, p.1 = p.2.libname) →
      ((fs.foldl (resolveStep locked) acc).map Prod.fst).Nodup
      ∧ ∀ p ∈ fs.foldl (resolveStep locked) acc, p.1 = p.2.libname := by
  induction fs with
  | nil => intro acc h1 h2; exact ⟨h1, h2⟩
  | cons f rest ih =>
    intro acc h1 h2
    have hstep := resolveStep_inv locked acc f h1 h2
    exact ih _ hstep.1 hstep.2

/-- The resolved set has pairwise distinct names and only entries whose
artifact file exists. -/
theorem resolveFingers_props (snap : Snapshot)
    (locked : List (String × String)) (fs : List Fingerprint) :
    ((resolveFingers snap locked fs).map (fun f => f.libname)).Nodup
    ∧ ∀ f ∈ resolveFingers snap locked fs, snap.pathExists f.rlib = true := by
  constructor
  · have hinv := foldl_resolve_inv locked fs [] (by simp) (by simp)
    set A := fs.foldl (resolveStep locked) [] with hA
    have hsub : List.Sublist
        (((A.map Prod.snd).filter (fun f => snap.pathExists f.rlib)).map
          (fun f => f.libname))
        ((A.map Prod.snd).map (fun f => f.libname)) :=
      List.Sublist.map _ (List.filter_sublist _)
    have heq : (A.map Prod.snd).map (fun f => f.libname) = A.map Prod.fst := by
      rw [List.map_map]
      exact List.map_congr_left (fun p hp => (hinv.2 p hp).symm)
    have : ((A.map Prod.snd).map (fun f => f.libname)).Nodup := by
      rw [heq]; exact hinv.1
    exact List.Nodup.sublist hsub this
  · intro f hf
    exact (List.mem_filter.mp hf).2

/-- C2: for every locked set and every sequence of discovered
fingerprints, the resolved set has at most one entry per library name,
every entry's artifact file exists at resolution time, and a fingerprint
whose artifact file does not exist is never resolved; the same holds of
everything `get_rlib_dependencies` returns. -/
theorem resolved_set_unique_and_existing (snap : Snapshot)
    (locked : List (String × String)) (fs : List Fingerprint) :
    ((resolveFingers snap locked fs).map (fun f => f.libname)).Nodup
    ∧ (∀ f ∈ resolveFingers snap locked fs, snap.pathExists f.rlib = true)
    ∧ (∀ f, snap.pathExists f.rlib = false →
        f ∉ resolveFingers snap locked fs)
    ∧ ∀ (meta : MetaService) (root_dir target_dir : Path)
        (res : List Fingerprint),
        get_rlib_dependencies meta snap root_dir target_dir = some res →
        (res.map (fun f => f.libname)).Nodup
        ∧ ∀ f ∈ res, snap.pathExists f.rlib = true := by
  obtain ⟨h1, h2⟩ := resolveFingers_props snap locked fs
  refine ⟨h1, h2, ?_, ?_⟩
  · intro f hfalse hmem
    have htrue := h2 f hmem
    rw [hfalse] at htrue
    exact absurd htrue (by simp)
  · intro meta root_dir target_dir res hres
    unfold get_rlib_dependencies at hres
    split at hres
    · exact absurd hres (by simp)
    · dsimp only at hres
      injection hres with h'
      rw [← h']
      exact resolveFingers_props snap _ _

/-- Witness for C2 at the concrete `my_crate` resolution. -/
theorem resolved_set_unique_and_existing_witness :
    ((resolveFingers snapC7 [("my_crate", "1.0.0")] [fpC7]).map
        (fun f => f.libname)).Nodup
    ∧ snapC7.pathExists fpC7.rlib = true := by
  obtain ⟨h1, h2, -, -⟩ :=
    resolved_set_unique_and_existing snapC7 [("my_crate", "1.0.0")] [fpC7]
  exact ⟨h1, h2 fpC7 (by decide)⟩

/-- C4, counterexample: metadata is obtainable neither from the nominal
root `nowhere` nor from any directory three levels up from the supplied
build-output directory `p/target/debug/build/x/out` (nor three levels up
from the resolver's target directory), yet resolution succeeds — the code
retries five levels up from the build-output directory (two `pop`s from
the target directory), where `p/Cargo.toml` answers. -/
theorem lock_fallback_counterexample :
    LockedDeps.from_path metaOnlyP ["nowhere"] = none
    ∧ LockedDeps.from_path metaOnlyP
        ((["p", "target", "debug", "build", "x",
           "out"].dropLast.dropLast).dropLast) = none
    ∧ LockedDeps.from_path metaOnlyP
        ((["p", "target", "debug"].dropLast.dropLast).dropLast) = none
    ∧ (get_rlib_dependencies metaOnlyP snapAll ["nowhere"]
        ((["p", "target", "debug", "build", "x",
           "out"].dropLast.dropLast).dropLast)).isSome = true := by
  decide

/-- C4, amended: if lock metadata cannot be obtained from the nominal
project root, resolution retries with a root obtained by walking two
levels up from the resolver's target directory (five levels, not three,
up from the supplied build-output directory), and fails exactly when
both attempts fail. -/
theorem lock_fallback_retry (meta : MetaService) (snap : Snapshot)
    (root_dir target_dir : Path) :
    ((get_rlib_dependencies meta snap root_dir target_dir).isSome
      ↔ (LockedDeps.from_path meta root_dir).isSome
        ∨ (LockedDeps.from_path meta
            ((target_dir.dropLast).dropLast)).isSome)
    ∧ (LockedDeps.from_path meta root_dir = none →
        get_rlib_dependencies meta snap root_dir target_dir
          = get_rlib_dependencies meta snap
              ((target_dir.dropLast).dropLast) target_dir) := by
  constructor
  · unfold get_rlib_dependencies
    cases h1 : LockedDeps.from_path meta root_dir with
    | some l => simp [h1]
    | none =>
      cases h2 : LockedDeps.from_path meta
          ((target_dir.dropLast).dropLast) with
      | some l => simp [h1, h2]
      | none => simp [h1, h2]
  · intro h
    unfold get_rlib_dependencies
    rw [h]
    cases h2 : LockedDeps.from_path meta
        ((target_dir.dropLast).dropLast) with
    | some l => simp [h2]
    | none => simp [h2]

/-- Witness for C4 (amended): with the nominal root unanswerable, the
resolution equals the one rooted two levels up from the target
directory. -/
theorem lock_fallback_retry_witness :
    get_rlib_dependencies metaOnlyP snapAll ["nowhere"]
        ["p", "target", "debug"]
      = get_rlib_dependencies metaOnlyP snapAll ["p"]
          ["p", "target", "debug"] :=
  (lock_fallback_retry metaOnlyP snapAll ["nowhere"]
    ["p", "target", "debug"]).2 (by decide)

/-- When every id string yields a pair, driving the `LockedDeps` iterator
is exactly `filterMap`. -/
theorem collectAux_all_some (l : List String)
    (h : ∀ v ∈ l, (LockedDeps.next v).isSome) :
    LockedDeps.collectAux l = l.filterMap LockedDeps.next := by
  induction l with
  | nil => rfl
  | cons v rest ih =>
    obtain ⟨p, hp⟩ :=
      Option.isSome_iff_exists.mp (h v (List.mem_cons_self v rest))
    simp [LockedDeps.collectAux, hp,
      ih (fun w hw => h w (List.mem_cons_of_mem v hw))]

/-- When every id string yields a pair, no pair is dropped. -/
theorem collectAux_length (l : List String)
    (h : ∀ v ∈ l, (LockedDeps.next v).isSome) :
    (LockedDeps.collectAux l).length = l.length := by
  induction l with
  | nil => rfl
  | cons v rest ih =>
    obtain ⟨p, hp⟩ :=
      Option.isSome_iff_exists.mp (h v (List.mem_cons_self v rest))
    simp [LockedDeps.collectAux, hp,
      ih (fun w hw => h w (List.mem_cons_of_mem v hw))]

/-- C9: the lock-manifest reader yields a (name, version-or-source) pair
for every dependency of every workspace member plus one pair per
workspace member itself; an absent resolve graph is a hard failure, not
a partial list. -/
theorem locked_deps_reader_spec (meta : MetaService) (root : Path)
    (m : Metadata) (hm : meta (root ++ ["Cargo.toml"]) = some m) :
    (m.resolve = none → LockedDeps.from_path meta root = none)
    ∧ ∀ nodes, m.resolve = some nodes →
        ∃ ds, LockedDeps.from_path meta root = some ds
          ∧ (∀ n ∈ nodes, m.workspace_members.contains n.id = true →
              ∀ d ∈ n.dependencies, d.rep ∈ ds)
          ∧ (∀ w ∈ m.workspace_members, w.rep ∈ ds)
          ∧ ((∀ v ∈ ds, (LockedDeps.next v).isSome) →
              (LockedDeps.collect ds).length = ds.length
              ∧ ∀ v ∈ ds, ∃ p, LockedDeps.next v = some p
                  ∧ p ∈ LockedDeps.collect ds) := by
  constructor
  · intro h
    simp [LockedDeps.from_path, hm, h]
  · intro nodes hres
    refine ⟨(((nodes.filter
        (fun n => m.workspace_members.contains n.id)).flatMap
          (fun n => n.dependencies)) ++ m.workspace_members).map
            (fun p => p.rep),
      by simp only [LockedDeps.from_path, hm, hres], ?_, ?_, ?_⟩
    · intro n hn hc d hd
      refine List.mem_map_of_mem _ (List.mem_append_left _ ?_)
      exact List.mem_flatMap.mpr ⟨n, List.mem_filter.mpr ⟨hn, hc⟩, hd⟩
    · intro w hw
      exact List.mem_map_of_mem _ (List.mem_append_right _ hw)
    · intro hall
      have hrev : ∀ v ∈ (((nodes.filter
          (fun n => m.workspace_members.contains n.id)).flatMap
            (fun n => n.dependencies)) ++ m.workspace_members).map
              (fun p => p.rep) |>.reverse, (LockedDeps.next v).isSome :=
        fun v hv => hall v (List.mem_reverse.mp hv)
      constructor
      · rw [LockedDeps.collect, collectAux_length _ hrev]
        simp [Nat.add_comm]
      · intro v hv
        obtain ⟨p, hp⟩ := Option.isSome_iff_exists.mp (hall v hv)
        refine ⟨p, hp, ?_⟩
        rw [LockedDeps.collect, collectAux_all_some _ hrev]
        exact List.mem_filterMap.mpr ⟨v, List.mem_reverse.mpr hv, hp⟩

/-- Witness for C9: a one-member workspace depending on `serde 1.0.0`
yields both the dependency's and the member's pairs. -/
theorem locked_deps_reader_spec_witness :
    ∃ ds, LockedDeps.from_path metaAtR ["r"] = some ds
      ∧ "serde 1.0.0 (registry)" ∈ ds
      ∧ "demo 0.1.0 (path+file:///demo)" ∈ ds := by
  obtain ⟨-, h2⟩ := locked_deps_reader_spec metaAtR ["r"] metaC9 (by decide)
  obtain ⟨ds, hds, hdep, hmem, -⟩ := h2 _ rfl
  refine ⟨ds, hds, ?_, ?_⟩
  · exact hdep
      { id := { rep := "demo 0.1.0 (path+file:///demo)" }
        dependencies := [{ rep := "serde 1.0.0 (registry)" }] }
      (by decide) (by decide) { rep := "serde 1.0.0 (registry)" } (by decide)
  · exact hmem { rep := "demo 0.1.0 (path+file:///demo)" } (by decide)

/-- `editionPairs` succeeds exactly by pairing every edition string with
its parsed value. -/
theorem editionPairs_spec :
    ∀ (l : List String) (prs : List (String × Nat)),
    editionPairs l = some prs →
    prs.map Prod.fst = l ∧ ∀ p ∈ prs, parseU64 p.1 = some p.2 := by
  intro l
  induction l with
  | nil =>
    intro prs h
    simp only [editionPairs, Option.some_inj] at h
    subst h
    simp
  | cons e rest ih =>
    intro prs h
    simp only [editionPairs] at h
    cases hp : parseU64 e with
    | none => rw [hp] at h; exact absurd h (by simp)
    | some v =>
      rw [hp] at h
      cases hr : editionPairs rest with
      | none => rw [hr] at h; exact absurd h (by simp)
      | some ps =>
        rw [hr] at h
        simp only [Option.map_some', Option.some_inj] at h
        subst h
        obtain ⟨ih1, ih2⟩ := ih ps hr
        refine ⟨by simp [ih1], ?_⟩
        intro p hp'
        rcases List.mem_cons.mp hp' with h' | h'
        · subst h'; exact hp
        · exact ih2 p h'

/-- The `max_by_key` fold yields the initial accumulator or a list
element. -/
theorem foldl_maxBy_mem {α : Type} (key : α → Nat) (xs : List α) :
    ∀ acc, xs.foldl (fun acc y => if key acc ≤ key y then y else acc) acc
        = acc
      ∨ xs.foldl (fun acc y => if key acc ≤ key y then y else acc) acc
        ∈ xs := by
  induction xs with
  | nil => intro acc; exact Or.inl rfl
  | cons y rest ih =>
    intro acc
    simp only [List.foldl_cons]
    rcases ih (if key acc ≤ key y then y else acc) with h | h
    · rw [h]
      by_cases hc : key acc ≤ key y
      · rw [if_pos hc]
        exact Or.inr (List.mem_cons_self y rest)
      · rw [if_neg hc]
        exact Or.inl rfl
    · exact Or.inr (List.mem_cons_of_mem y h)

/-- The `max_by_key` fold dominates the initial accumulator and every
list element. -/
theorem foldl_maxBy_ge {α : Type} (key : α → Nat) (xs : List α) :
    ∀ acc,
      key acc ≤ key (xs.foldl
        (fun acc y => if key acc ≤ key y then y else acc) acc)
      ∧ ∀ y ∈ xs, key y ≤ key (xs.foldl
          (fun acc y => if key acc ≤ key y then y else acc) acc) := by
  induction xs with
  | nil => intro acc; exact ⟨le_refl _, by simp⟩
  | cons y rest ih =>
    intro acc
    simp only [List.foldl_cons]
    obtain ⟨h1, h2⟩ := ih (if key acc ≤ key y then y else acc)
    constructor
    · refine le_trans ?_ h1
      by_cases hc : key acc ≤ key y
      · rw [if_pos hc]; exact hc
      · rw [if_neg hc]
    · intro z hz
      rcases List.mem_cons.mp hz with h' | h'
      · subst h'
        refine le_trans ?_ h1
        by_cases hc : key acc ≤ key z
        · rw [if_pos hc]
        · rw [if_neg hc]; exact le_of_not_le hc
      · exact h2 z h'

/-- `maxByKey` returns a list element whose key dominates all keys. -/
theorem maxByKey_spec {α : Type} (key : α → Nat) (l : List α) (x : α)
    (h : maxByKey key l = some x) : x ∈ l ∧ ∀ y ∈ l, key y ≤ key x := by
  cases l with
  | nil => exact absurd h (by simp [maxByKey])
  | cons a xs =>
    simp only [maxByKey, Option.some_inj] at h
    subst h
    constructor
    · rcases foldl_maxBy_mem key xs a with h | h
      · rw [h]; exact List.mem_cons_self _ _
      · exact List.mem_cons_of_mem _ h
    · intro y hy
      obtain ⟨h1, h2⟩ := foldl_maxBy_ge key xs a
      rcases List.mem_cons.mp hy with h' | h'
      · subst h'; exact h1
      · exact h2 y h'

/-- C5: the edition handed to the compiler is the numerically maximal
declared edition over all packages; the `--edition` flag is added to the
command (before the `-L` flags) exactly when that edition differs from
"2015"; failure to determine the edition aborts before any compiler
command exists. -/
theorem edition_selection_spec (meta : MetaService) (snap : Snapshot)
    (in_path out_path : Path) (rustc : String) (root_dir out_dir : Path)
    (target_triple : String) (ct : CompileType) (m : Metadata)
    (hm : meta (root_dir ++ ["Cargo.toml"]) = some m) :
    (∀ e, get_edition meta root_dir = some e →
       e ∈ m.packages
       ∧ ∀ x ∈ m.packages, ∀ vx ve, parseU64 x = some vx →
           parseU64 e = some ve → vx ≤ ve)
    ∧ (∀ e cmd, get_edition meta root_dir = some e →
        compile_test_case meta snap in_path out_path rustc root_dir out_dir
          target_triple ct = some cmd →
        ∃ rest, cmd.args
          = [pathToString in_path, "--verbose", "--crate-type=bin"]
            ++ (if e = "2015" then [] else ["--edition=" ++ e])
            ++ ("-L" :: rest))
    ∧ (get_edition meta root_dir = none →
        compile_test_case meta snap in_path out_path rustc root_dir out_dir
          target_triple ct = none) := by
  refine ⟨?_, ?_, ?_⟩
  · intro e he
    unfold get_edition at he
    rw [hm] at he
    dsimp only at he
    cases hps : editionPairs m.packages with
    | none => rw [hps] at he; exact absurd he (by simp)
    | some ps =>
      rw [hps] at he
      dsimp only at he
      cases hmx : maxByKey (fun p => p.2) ps with
      | none => rw [hmx] at he; exact absurd he (by simp)
      | some mx =>
        rw [hmx] at he
        simp only [Option.map_some', Option.some_inj] at he
        subst he
        obtain ⟨hfst, hparse⟩ := editionPairs_spec m.packages ps hps
        obtain ⟨hmem, hge⟩ := maxByKey_spec (fun p => p.2) ps mx hmx
        constructor
        · rw [← hfst]
          exact List.mem_map_of_mem _ hmem
        · intro x hx vx ve hvx hve
          rw [← hfst] at hx
          obtain ⟨p, hp, hpx⟩ := List.mem_map.mp hx
          have h1 : parseU64 x = some p.2 := hpx ▸ hparse p hp
          have h2 : parseU64 mx.1 = some mx.2 := hparse mx hmem
          rw [h1] at hvx
          rw [h2] at hve
          injection hvx with hvx
          injection hve with hve
          rw [← hvx, ← hve]
          exact hge p hp
  · intro e cmd he hc
    unfold compile_test_case at hc
    dsimp only at hc
    rw [he] at hc
    cases hdeps : get_rlib_dependencies meta snap root_dir
        (((out_dir.dropLast).dropLast).dropLast) with
    | none => rw [hdeps] at hc; exact absurd hc (by simp)
    | some deps =>
      rw [hdeps] at hc
      injection hc with hc
      rw [← hc]
      cases ct with
      | Full =>
        refine ⟨[pathToString (((out_dir.dropLast).dropLast).dropLast), "-L",
          pathToString ((((out_dir.dropLast).dropLast).dropLast) ++ ["deps"]),
          "--target", target_triple]
          ++ deps.flatMap (fun dep =>
              ["--extern", dep.libname ++ "=" ++ pathToString dep.rlib])
          ++ ["-o", pathToString out_path], ?_⟩
        simp
      | Check =>
        refine ⟨[pathToString (((out_dir.dropLast).dropLast).dropLast), "-L",
          pathToString ((((out_dir.dropLast).dropLast).dropLast) ++ ["deps"]),
          "--target", target_triple]
          ++ deps.flatMap (fun dep =>
              ["--extern", dep.libname ++ "=" ++ pathToString dep.rlib])
          ++ ["--emit=dep-info=" ++ pathToString out_path
              ++ ".d,metadata=" ++ pathToString out_path ++ ".m"], ?_⟩
        simp
  · intro h
    unfold compile_test_case
    dsimp only
    rw [h]

/-- Witness for C5: a `2015`/`2018` workspace selects `2018`, the flag is
emitted, and an unparseable edition aborts compilation. -/
theorem edition_selection_spec_witness :
    "2018" ∈ metaC9.packages
    ∧ (∃ cmd rest,
        compile_test_case metaAtR snapC7 ["tmp", "test.rs"]
          ["tmp", "out.exe"] "rustc" ["r"]
          ["r", "target", "debug", "build", "x", "out"] "tgt"
          CompileType.Check = some cmd
        ∧ cmd.args
          = [pathToString ["tmp", "test.rs"], "--verbose", "--crate-type=bin"]
            ++ (if "2018" = "2015" then [] else ["--edition=" ++ "2018"])
            ++ ("-L" :: rest))
    ∧ compile_test_case metaBadAtB snapC7 ["tmp", "test.rs"]
        ["tmp", "out.exe"] "rustc" ["b"]
        ["b", "target", "debug", "build", "x", "out"] "tgt"
        CompileType.Check = none := by
  obtain ⟨h1, h2, -⟩ := edition_selection_spec metaAtR snapC7
    ["tmp", "test.rs"] ["tmp", "out.exe"] "rustc" ["r"]
    ["r", "target", "debug", "build", "x", "out"] "tgt" CompileType.Check
    metaC9 (by decide)
  obtain ⟨-, -, h3⟩ := edition_selection_spec metaBadAtB snapC7
    ["tmp", "test.rs"] ["tmp", "out.exe"] "rustc" ["b"]
    ["b", "target", "debug", "build", "x", "out"] "tgt" CompileType.Check
    metaBad (by decide)
  have he : get_edition metaAtR ["r"] = some "2018" := by decide
  obtain ⟨cmd, hcmd⟩ := Option.isSome_iff_exists.mp
    (show (compile_test_case metaAtR snapC7 ["tmp", "test.rs"]
      ["tmp", "out.exe"] "rustc" ["r"]
      ["r", "target", "debug", "build", "x", "out"] "tgt"
      CompileType.Check).isSome = true by decide)
  obtain ⟨rest, hargs⟩ := h2 "2018" cmd he hcmd
  exact ⟨(h1 "2018" he).1, ⟨cmd, rest, hcmd, hargs⟩, h3 (by decide)⟩

/-- `guess_ext` returns the first path of its probe chain that exists. -/
theorem guess_ext_eq_find (snap : Snapshot) (exts : List String) :
    ∀ p, guess_ext snap exts p
      = (probeList exts p).find? snap.pathExists := by
  induction exts with
  | nil => intro p; rfl
  | cons e rest ih =>
    intro p
    simp only [guess_ext, probeList]
    cases h : snap.pathExists (setExtPath p e) with
    | true => simp [List.find?, h]
    | false => simp [List.find?, h, ih]

/-- The fixed probe chain of the source's extension list. -/
theorem probes_eq_probeList (p : Path) :
    probes p = probeList ["rlib", "so", "dylib", "dll"] p := rfl

/-- Reversing, dropping the head and reversing again drops the last
element. -/
theorem reverse_tail_reverse {α : Type} (l : List α) :
    ((l.reverse).tail).reverse = l.dropLast := by
  induction l using List.reverseRecOn with
  | nil => rfl
  | append_singleton xs x ih => simp

/-- C3: `Fingerprint::from_path` succeeds only on files with the `json`
metadata suffix; on success the name and hash come from the parent
directory's base name split from the right on `-` (rightmost segment the
hash, the rest rejoined with `_` as the name), and the artifact is the
path three levels up under `deps/lib<name>-<hash>` with the first of the
probed extensions `[rlib, so, dylib, dll]` that exists; the candidate
fails when no probed extension exists. -/
theorem fingerprint_from_path_spec (snap : Snapshot) (pth : Path) :
    (∀ fp, Fingerprint.from_path snap pth = some fp →
       pathExtension pth = some "json")
    ∧ (∀ fp, Fingerprint.from_path snap pth = some fp →
       ∃ stem hash, pathFileStem pth.dropLast = some stem
         ∧ (splitOnChar '-' stem).getLast? = some hash
         ∧ fp.libname
             = String.intercalate "_" ((splitOnChar '-' stem).dropLast)
         ∧ (probes (((pth.dropLast).dropLast).dropLast
              ++ ["deps", "lib" ++ fp.libname ++ "-" ++ hash])).find?
                snap.pathExists = some fp.rlib)
    ∧ (∀ stem hash, pathFileStem pth.dropLast = some stem →
        (splitOnChar '-' stem).getLast? = some hash →
        (∀ q ∈ probes (((pth.dropLast).dropLast).dropLast
            ++ ["deps", "lib" ++ String.intercalate "_"
                  ((splitOnChar '-' stem).dropLast) ++ "-" ++ hash]),
          snap.pathExists q = false) →
        Fingerprint.from_path snap pth = none) := by
  have hsucc : ∀ fp, Fingerprint.from_path snap pth = some fp →
      pathExtension pth = some "json"
      ∧ ∃ stem hash, pathFileStem pth.dropLast = some stem
          ∧ (splitOnChar '-' stem).getLast? = some hash
          ∧ fp.libname
              = String.intercalate "_" ((splitOnChar '-' stem).dropLast)
          ∧ (probes (((pth.dropLast).dropLast).dropLast
               ++ ["deps", "lib" ++ fp.libname ++ "-" ++ hash])).find?
                 snap.pathExists = some fp.rlib := by
    intro fp h
    unfold Fingerprint.from_path at h
    cases hstem : pathFileStem pth.dropLast with
    | none => rw [hstem] at h; exact absurd h (by simp)
    | some stem =>
      rw [hstem] at h
      dsimp only at h
      cases hhash : ((splitOnChar '-' stem).reverse).head? with
      | none => rw [hhash] at h; exact absurd h (by simp)
      | some hash =>
        rw [hhash] at h
        dsimp only at h
        cases hext : pathExtension pth with
        | none => rw [hext] at h; exact absurd h (by simp)
        | some e =>
          rw [hext] at h
          dsimp only at h
          by_cases hej : e = "json"
          · rw [if_pos hej] at h
            cases hguess : guess_ext snap ["rlib", "so", "dylib", "dll"]
                (((pth.dropLast).dropLast).dropLast
                  ++ ["deps", "lib" ++ String.intercalate "_"
                        (((splitOnChar '-' stem).reverse).tail).reverse
                      ++ "-" ++ hash]) with
            | none => rw [hguess] at h; exact absurd h (by simp)
            | some rlib =>
              rw [hguess] at h
              dsimp only at h
              cases hpe : snap.pathExists pth with
              | false => rw [hpe] at h; exact absurd h (by simp)
              | true =>
                rw [hpe] at h
                simp only [if_true] at h
                injection h with h
                subst h
                constructor
                · rw [hej]
                · refine ⟨stem, hash, rfl, ?_, ?_, ?_⟩
                  · rw [← List.head?_reverse]
                    exact hhash
                  · dsimp only
                    rw [reverse_tail_reverse]
                  · dsimp only
                    rw [probes_eq_probeList, ← guess_ext_eq_find]
                    exact hguess
          · rw [if_neg hej] at h
            exact absurd h (by simp)
  refine ⟨fun fp h => (hsucc fp h).1, fun fp h => (hsucc fp h).2, ?_⟩
  intro stem hash hstem hhash hnone
  unfold Fingerprint.from_path
  rw [hstem]
  dsimp only
  rw [show ((splitOnChar '-' stem).reverse).head? = some hash from by
    rw [List.head?_reverse]; exact hhash]
  dsimp only
  cases hext : pathExtension pth with
  | none => rfl
  | some e =>
    dsimp only
    by_cases hej : e = "json"
    · rw [if_pos hej]
      rw [reverse_tail_reverse]
      have hfind : guess_ext snap ["rlib", "so", "dylib", "dll"]
          (((pth.dropLast).dropLast).dropLast
            ++ ["deps", "lib" ++ String.intercalate "_"
                  ((splitOnChar '-' stem).dropLast) ++ "-" ++ hash])
          = none := by
        rw [guess_ext_eq_find]
        refine List.find?_eq_none.mpr ?_
        intro q hq
        have hf := hnone q (by rw [probes_eq_probeList]; exact hq)
        simp [hf]
      rw [hfind]
    · rw [if_neg hej]

/-- Witness for C3 at the concrete `serde` metadata file: the suffix is
`json`, the stem splits into name `serde` and hash `ff11`, and the first
existing probe is the `so` artifact. -/
theorem fingerprint_from_path_spec_witness :
    pathExtension pathC3 = some "json"
    ∧ ∃ stem hash, pathFileStem pathC3.dropLast = some stem
        ∧ (splitOnChar '-' stem).getLast? = some hash
        ∧ fpC3.libname
            = String.intercalate "_" ((splitOnChar '-' stem).dropLast)
        ∧ (probes (((pathC3.dropLast).dropLast).dropLast
             ++ ["deps", "lib" ++ fpC3.libname ++ "-" ++ hash])).find?
               snapC3.pathExists = some fpC3.rlib := by
  obtain ⟨ha, hb, -⟩ := fingerprint_from_path_spec snapC3 pathC3
  exact ⟨ha fpC3 (by decide), hb fpC3 (by decide)⟩

/-- C10: every fingerprint the scanner produces carries no version
(`Fingerprint::from_path` always sets `version: None`); consequently the
occupied-entry replacement branch never fires over scanner-produced
candidates, and the first discovered candidate whose name is locked is
the one retained for that name. -/
theorem scanner_unversioned_first_wins :
    (∀ (snap : Snapshot) (p : Path) (fp : Fingerprint),
       Fingerprint.from_path snap p = some fp → fp.version = none)
    ∧ ∀ (locked : List (String × String)) (fs : List Fingerprint),
        (∀ f ∈ fs, f.version = none) →
        ∀ n v, alookup locked n = some v →
          alookup (fs.foldl (resolveStep locked) []) n
            = fs.find? (fun f => f.libname == n) := by
  constructor
  · intro snap p fp h
    unfold Fingerprint.from_path at h
    split at h
    · exact absurd h (by simp)
    · dsimp only at h
      split at h
      · exact absurd h (by simp)
      · split at h
        · exact absurd h (by simp)
        · split at h
          · split at h
            · exact absurd h (by simp)
            · split at h
              · injection h with h'
                rw [← h']
              · exact absurd h (by simp)
          · exact absurd h (by simp)
  · intro locked fs hv n v hl
    exact foldl_first_wins locked fs hv n v hl [] rfl

/-- Witness for C10: the concrete scanner output at `pathC7` is
version-absent, and of two version-absent `foo` candidates the first
discovered one is retained. -/
theorem scanner_unversioned_first_wins_witness :
    fpC7.version = none
    ∧ alookup ([fingerN1, fingerN2].foldl
        (resolveStep [("foo", "1.2.0")]) []) "foo" = some fingerN1 := by
  constructor
  · exact scanner_unversioned_first_wins.1 snapC7 pathC7 fpC7 (by decide)
  · have h := scanner_unversioned_first_wins.2 [("foo", "1.2.0")]
      [fingerN1, fingerN2] (by decide) "foo" "1.2.0" (by decide)
    rw [h]; decide

end Skeptic
